import Mathlib

/-!
Verification development for the range-partitioning and fetch-orchestration core
of `storms/_datasource.py` (class `_DataSource`).

Timestamps are modelled as natural numbers: seconds since 2000-01-01 00:00 of
the Gregorian calendar (instants before 2000 are not used by any claim).
`pd.Timedelta("1 minute")` is 60 seconds.
-/

set_option maxRecDepth 100000

namespace Storms

/-- Gregorian leap-year rule (pandas calendar). -/
def isLeap (y : Nat) : Bool :=
  y % 4 == 0 && (y % 100 != 0 || y % 400 == 0)

/-- Number of seconds in calendar year `y`. -/
def secondsInYear (y : Nat) : Nat :=
  if isLeap y then 366 * 86400 else 365 * 86400

/-- Seconds from the epoch (2000-01-01 00:00) to `y`-01-01 00:00, for
`y >= 2000`; years at or before the epoch map to 0. -/
def jan1 : Nat → Nat
  | 0 => 0
  | y + 1 => if y < 2000 then 0 else jan1 y + secondsInYear y

/-- Days in month `m` (1..12) of a (non-)leap year. -/
def daysInMonth (leap : Bool) : Nat → Nat
  | 1 => 31
  | 2 => if leap then 29 else 28
  | 3 => 31
  | 4 => 30
  | 5 => 31
  | 6 => 30
  | 7 => 31
  | 8 => 31
  | 9 => 30
  | 10 => 31
  | 11 => 30
  | 12 => 31
  | _ => 0

/-- Days strictly before month `m` within one year. -/
def daysBeforeMonth (leap : Bool) : Nat → Nat
  | 0 => 0
  | 1 => 0
  | m + 1 => daysBeforeMonth leap m + daysInMonth leap (m)

/-- Seconds from the epoch to the instant `y`-`mo`-`d` `hh`:`mi`. -/
def secondsOf (y mo d hh mi : Nat) : Nat :=
  jan1 y + (daysBeforeMonth (isLeap y) mo + (d - 1)) * 86400 + hh * 3600 + mi * 60

/-- Helper producing `count` consecutive year-start stamps beginning at year
`y` whose year start is at `acc` seconds. -/
def jan1sFrom : Nat → Nat → Nat → List Nat
  | 0, _, _ => []
  | count + 1, y, acc => acc :: jan1sFrom count (y + 1) (acc + secondsInYear y)

/-- Model of `pd.date_range(dStart, dEnd, freq="YS")`: every year-start
("YS"-anchored) timestamp `t` with `dStart <= t <= dEnd`, in increasing order.
Scanning the `e / (365*86400) + 2` years from 2000 on is exhaustive because
`jan1 (2000 + k) >= k * 365 * 86400`, so any later year start exceeds `e`.
For `dStart > dEnd` the result is empty, as in pandas. -/
def dateRangeYS (s e : Nat) : List Nat :=
  (jan1sFrom (e / (365 * 86400) + 2) 2000 0).filter (fun t => decide (s ≤ t) && decide (t ≤ e))

/-- Model of `pandas.Index.drop_duplicates` (default `keep="first"`): remove
every element equal to an earlier one, keeping first occurrences in order.
`seen` accumulates the values already kept. -/
def dropDupsAux : List Nat → List Nat → List Nat
  | _, [] => []
  | seen, x :: xs => if x ∈ seen then dropDupsAux seen xs else x :: dropDupsAux (x :: seen) xs

def dropDuplicates (l : List Nat) : List Nat :=
  dropDupsAux [] l

/-- The boundary index built by `_sync_request_data_series` (lines 119-121) and
`_async_request_data_series` (lines 175-177) from an anchor list `anchors`
(the `pd.date_range` output): `dRange = date_range(...).insert(0, dStart)`;
`dRange = dRange.insert(len(dRange), dEnd).drop_duplicates()`. -/
def boundariesWith (anchors : List Nat) (s e : Nat) : List Nat :=
  dropDuplicates ((s :: anchors) ++ [e])

def boundaries (s e : Nat) : List Nat :=
  boundariesWith (dateRangeYS s e) s e

/-- Pairing of consecutive boundaries into request sub-intervals, as in the
loop `for i in range(len(dRange) - 1): ... start=dRange[i],
end=dRange[i + 1] - pd.Timedelta("1 minute")` (lines 129-137 and 192-201). -/
def pairUp (b : List Nat) : List (Nat × Nat) :=
  (List.range (b.length - 1)).map (fun i => (b.getD i 0, b.getD (i + 1) 0 - 60))

/-- The partition plan for anchors `anchors` and request range `[s, e]`. -/
def planWith (anchors : List Nat) (s e : Nat) : List (Nat × Nat) :=
  pairUp (boundariesWith anchors s e)

/-- The partition plan of the source for the default `pull_freq = "YS"`. -/
def plan (s e : Nat) : List (Nat × Nat) :=
  planWith (dateRangeYS s e) s e

/-- 2020-01-01 00:00. -/
def d20200101 : Nat := secondsOf 2020 1 1 0 0

/-- 2020-12-31 23:59. -/
def d20201231t2359 : Nat := secondsOf 2020 12 31 23 59

/-- 2021-01-01 00:00. -/
def d20210101 : Nat := secondsOf 2021 1 1 0 0

/-- 2021-12-31 23:59. -/
def d20211231t2359 : Nat := secondsOf 2021 12 31 23 59

/-- 2022-01-01 00:00. -/
def d20220101 : Nat := secondsOf 2022 1 1 0 0

/-- 2022-06-14 23:59. -/
def d20220614t2359 : Nat := secondsOf 2022 6 14 23 59

/-- 2022-06-15 00:00. -/
def d20220615 : Nat := secondsOf 2022 6 15 0 0

/-- 2020-06-15 00:00. -/
def d20200615 : Nat := secondsOf 2020 6 15 0 0

/-- 2020-08-01 00:00. -/
def d20200801 : Nat := secondsOf 2020 8 1 0 0

/-- 2021-06-15 00:00. -/
def d20210615 : Nat := secondsOf 2021 6 15 0 0

/-!  Executor models.

A deterministic per-range fetch collaborator is a function
`f : Nat × Nat → Except E A` from a sub-interval to either a terminal
`FetchError` value (`Except.error`) or a payload (`Except.ok`); retries happen
inside the collaborator (`aiohttp_retry` / `urllib3.util.retry`) and are not
visible at this level. -/

/-- Sequential executor: the loop of `_sync_request_data_series` (lines
128-138) together with the tqdm counter (`self.bar.update(1)` performed by
`_increment_progress` after each *successful* append; a raised exception
leaves the loop at once).  State passed: the counter `c`; an error carries the
counter at raise time, a success carries the final counter. -/
def syncSeries {E A : Type} (f : Nat × Nat → Except E A) :
    List (Nat × Nat) → Nat → Except (E × Nat) (List A × Nat)
  | [], c => .ok ([], c)
  | iv :: rest, c =>
    match f iv with
    | .error e => .error (e, c)
    | .ok a =>
      match syncSeries f rest (c + 1) with
      | .ok (as, c') => .ok (a :: as, c')
      | .error ec => .error ec

/-- The data (or first exception) produced by the sequential executor. -/
def syncData {E A : Type} (f : Nat × Nat → Except E A) (p : List (Nat × Nat)) :
    Except E (List A) :=
  match syncSeries f p 0 with
  | .ok (l, _) => .ok l
  | .error (e, _) => .error e

/-- The error (if any) of the `i`-th task's terminal outcome. -/
def errOf {E A : Type} (outcomes : List (Except E A)) (i : Nat) : Option E :=
  match outcomes.get? i with
  | some (.error e) => some e
  | _ => none

/-- Model of `await asyncio.gather(*tasks)` (line 208) with the default
`return_exceptions=False`, as documented for asyncio: if every task succeeds,
the aggregate list of results is returned in task (index) order; otherwise the
first exception, in completion order `sched`, is propagated immediately — the
remaining awaitables are not awaited and keep running.  `outcomes` lists each
task's terminal outcome by index, `sched` the order task indices complete in. -/
def gatherModel {E A : Type} (outcomes : List (Except E A)) (sched : List Nat) :
    Except E (List A) :=
  match (sched.filterMap (errOf outcomes)).head? with
  | some e => .error e
  | none => .ok (outcomes.filterMap Except.toOption)

/-- Task indices still pending (not yet terminal) at the moment `gather`
surfaces its result: until the first failing completion the run continues;
at the first failure the rest of the completion schedule is still pending;
with no failure nothing is pending at the end. -/
def pendingAtSurface {E A : Type} (outcomes : List (Except E A)) : List Nat → List Nat
  | [] => []
  | i :: rest => if (errOf outcomes i).isSome then rest else pendingAtSurface outcomes rest

/-- Counter states of the progress bar in concurrent mode: line 203-204
registers `self._increment_progress` as a done-callback of every task, so the
counter is bumped once per completion, in completion order. -/
def progressAfter : List Nat → Nat → List Nat
  | [], c => [c]
  | _ :: rest, c => c :: progressAfter rest (c + 1)

def asyncProgressTrace (sched : List Nat) : List Nat :=
  progressAfter sched 0

/-!  Progress-tracker / data-source object state (`_DataSource`, lines 40-65). -/

/-- The tqdm bar: its `total`, current count `n`, and description. -/
structure Bar where
  total : Nat
  n : Nat
  desc : String
deriving DecidableEq

/-- The `_DataSource` instance fields set in `__init__` (lines 45-48) plus the
optional `bar` attribute (`hasattr(self, "bar")` is `bar.isSome`). -/
structure DS where
  ID : String
  URL : String
  progress : Bool
  bar : Option Bar
deriving DecidableEq

/-- Python exception raised when `self.bar` is accessed but absent. -/
inductive PErr where
  | attrError
deriving DecidableEq

/-- Lines 50-52: `if self.progress: self.bar.update(1)`. -/
def _increment_progress (st : DS) : Except PErr DS :=
  if st.progress then
    match st.bar with
    | some b => .ok { st with bar := some { b with n := b.n + 1 } }
    | none => .error .attrError
  else .ok st

/-- Lines 54-56: `if self.progress and not hasattr(self, "bar"):
self.bar = tqdm(total=totalDuration)`. -/
def _init_progress (st : DS) (totalDuration : Nat) : DS :=
  if st.progress && st.bar.isNone then { st with bar := some ⟨totalDuration, 0, ""⟩ } else st

/-- Lines 58-60: `if self.progress: self.bar.set_description(description)`. -/
def _update_progress_description (st : DS) (description : String) : Except PErr DS :=
  if st.progress then
    match st.bar with
    | some b => .ok { st with bar := some { b with desc := description } }
    | none => .error .attrError
  else .ok st

/-- Lines 62-65: `if self.progress: self.bar.close(); del self.bar`.
A second call finds no `bar` attribute and `self.bar.close()` raises
`AttributeError`. -/
def _close_progress (st : DS) : Except PErr DS :=
  if st.progress then
    match st.bar with
    | some _ => .ok { st with bar := none }
    | none => .error .attrError
  else .ok st

/-- Errors escaping a top-level request: a terminal fetch failure or an
`AttributeError` from a progress call. -/
inductive RunErr (E : Type) where
  | fetch (e : E)
  | attrError
deriving DecidableEq

/-- The fetch loop of `_sync_request_data_series` (lines 128-138) acting on the
full object state: per sub-interval, fetch (a raised error aborts), then
`self._increment_progress()`. -/
def loopDS {E A : Type} (f : Nat × Nat → Except E A) :
    List (Nat × Nat) → DS → Except (RunErr E) (List A) × DS
  | [], st => (.ok [], st)
  | iv :: rest, st =>
    match f iv with
    | .error e => (.error (.fetch e), st)
    | .ok a =>
      match _increment_progress st with
      | .error _ => (.error .attrError, st)
      | .ok st' =>
        match loopDS f rest st' with
        | (.ok as, st'') => (.ok (a :: as), st'')
        | (.error e, st'') => (.error e, st'')

/-- `_sync_request_data_series` on the object state (lines 106-139):
`self._init_progress(totalDuration=len(dRange) - 1)`, then
`self._update_progress_description("Downloading")`, then the fetch loop. -/
def seriesRunDS {E A : Type} (f : Nat × Nat → Except E A) (a b : Nat) (st : DS) :
    Except (RunErr E) (List A) × DS :=
  match _update_progress_description (_init_progress st ((boundaries a b).length - 1))
      "Downloading" with
  | .error _ => (.error .attrError, _init_progress st ((boundaries a b).length - 1))
  | .ok st2 => loopDS f (plan a b) st2

/-- Modelled from the spec: `request_dataframe` (lines 67-87) sets
`self.progress = progress` and dispatches to the provider hook
`_sync_request_dataframe`, which is not part of this file (subclasses of this
repository implement it); per the spec it drives the series fetch and the
ProgressTracker is closed on every exit path of the top-level request
("`close` releases any display resource; idempotent teardown on all exit
paths including failure", "reset at the start of each top-level request").
So: set the flag, run the series, close the tracker. -/
def requestRun {E A : Type} (f : Nat × Nat → Except E A) (progress : Bool)
    (a b : Nat) (st : DS) : Except (RunErr E) (List A) × DS :=
  match seriesRunDS f a b { st with progress := progress } with
  | (r, st1) =>
    match _close_progress st1 with
    | .ok st2 => (r, st2)
    | .error _ => (.error .attrError, st1)

instance {E A : Type} [DecidableEq E] [DecidableEq A] : DecidableEq (Except E A) := fun x y =>
  match x, y with
  | .ok a, .ok b => decidable_of_iff (a = b) (by simp)
  | .error a, .error b => decidable_of_iff (a = b) (by simp)
  | .ok _, .error _ => isFalse (by intro h; cases h)
  | .error _, .ok _ => isFalse (by intro h; cases h)

theorem mem_dropDupsAux (l : List Nat) :
    ∀ (seen : List Nat) (x : Nat), x ∈ dropDupsAux seen l ↔ x ∈ l ∧ x ∉ seen := by
  induction l with
  | nil => intro seen x; simp [dropDupsAux]
  | cons y ys ih =>
    intro seen x
    by_cases hy : y ∈ seen
    · rw [show dropDupsAux seen (y :: ys) = dropDupsAux seen ys by simp [dropDupsAux, hy], ih]
      simp only [List.mem_cons]
      constructor
      · rintro ⟨hx, hs⟩; exact ⟨Or.inr hx, hs⟩
      · rintro ⟨rfl | hx, hs⟩
        · exact absurd hy hs
        · exact ⟨hx, hs⟩

    · rw [show dropDupsAux seen (y :: ys) = y :: dropDupsAux (y :: seen) ys by
        simp [dropDupsAux, hy]]
      simp only [List.mem_cons, ih]
      constructor
      · rintro (rfl | ⟨hx, hs⟩)
        · exact ⟨Or.inl rfl, hy⟩
        · simp only [List.mem_cons, not_or] at hs
          exact ⟨Or.inr hx, hs.2⟩
      · rintro ⟨rfl | hx, hs⟩
        · exact Or.inl rfl
        · by_cases hxy : x = y
          · exact Or.inl hxy
          · exact Or.inr ⟨hx, by simp [List.mem_cons, hxy, hs]⟩

theorem dropDupsAux_sublist (l : List Nat) :
    ∀ seen : List Nat, List.Sublist (dropDupsAux seen l) l := by
  induction l with
  | nil => intro seen; simp [dropDupsAux]
  | cons y ys ih =>
    intro seen
    by_cases hy : y ∈ seen
    · rw [show dropDupsAux seen (y :: ys) = dropDupsAux seen ys by simp [dropDupsAux, hy]]
      exact (ih seen).cons y
    · rw [show dropDupsAux seen (y :: ys) = y :: dropDupsAux (y :: seen) ys by
        simp [dropDupsAux, hy]]
      exact (ih (y :: seen)).cons₂ y

theorem mem_boundariesWith {anchors : List Nat} {s e x : Nat} :
    x ∈ boundariesWith anchors s e ↔ x = s ∨ x ∈ anchors ∨ x = e := by
  unfold boundariesWith dropDuplicates
  rw [mem_dropDupsAux]
  simp

theorem boundariesWith_eq_cons (anchors : List Nat) (s e : Nat) :
    boundariesWith anchors s e = s :: dropDupsAux [s] (anchors ++ [e]) := by
  simp [boundariesWith, dropDuplicates, dropDupsAux]

theorem boundariesWith_sorted {anchors : List Nat} {s e : Nat}
    (hA : List.Pairwise (· ≤ ·) anchors) (hlo : ∀ t ∈ anchors, s ≤ t)
    (hhi : ∀ t ∈ anchors, t ≤ e) (hse : s ≤ e) :
    List.Pairwise (· ≤ ·) (boundariesWith anchors s e) := by
  have hall : List.Pairwise (· ≤ ·) ((s :: anchors) ++ [e]) := by
    rw [List.cons_append, List.pairwise_cons]
    refine ⟨?_, ?_⟩
    · intro t ht
      rcases List.mem_append.mp ht with h | h
      · exact hlo t h
      · rw [List.mem_singleton] at h; subst h; exact hse
    · refine List.pairwise_append.mpr ⟨hA, by simp, ?_⟩
      intro a ha b hb
      rw [List.mem_singleton] at hb; subst hb
      exact hhi a ha
  exact hall.sublist (dropDupsAux_sublist _ _)

theorem pairUp_length (b : List Nat) : (pairUp b).length = b.length - 1 := by
  simp [pairUp]

theorem pairUp_getD (b : List Nat) (i : Nat) (h : i < b.length - 1) :
    (pairUp b).getD i (0, 0) = (b.getD i 0, b.getD (i + 1) 0 - 60) := by
  unfold pairUp
  rw [List.getD_eq_getElem?_getD, List.getElem?_map, List.getElem?_range h]
  rfl

theorem sorted_getD_le {b : List Nat} (hb : List.Pairwise (· ≤ ·) b) {i j : Nat}
    (hij : i ≤ j) (hj : j < b.length) : b.getD i 0 ≤ b.getD j 0 := by
  rcases Nat.eq_or_lt_of_le hij with rfl | hlt
  · exact le_refl _
  · have hi : i < b.length := lt_trans hlt hj
    rw [List.getD_eq_getElem?_getD, List.getD_eq_getElem?_getD,
      List.getElem?_eq_getElem hi, List.getElem?_eq_getElem hj]
    exact (List.pairwise_iff_getElem.mp hb) i j hi hj hlt

theorem sorted_getD_last {b : List Nat} {e : Nat} (hb : List.Pairwise (· ≤ ·) b)
    (he : e ∈ b) (hmax : ∀ x ∈ b, x ≤ e) : b.getD (b.length - 1) 0 = e := by
  rcases List.mem_iff_getElem.mp he with ⟨i, hi, hie⟩
  have h1 : b.length - 1 < b.length := by omega
  have hup : b.getD (b.length - 1) 0 ≤ e := by
    rw [List.getD_eq_getElem?_getD, List.getElem?_eq_getElem h1]
    exact hmax _ (List.getElem_mem h1)
  have hlow : e ≤ b.getD (b.length - 1) 0 := by
    have h2 := sorted_getD_le hb (show i ≤ b.length - 1 by omega) h1
    rw [List.getD_eq_getElem?_getD, List.getElem?_eq_getElem hi] at h2
    simpa [hie] using h2
  exact le_antisymm hup hlow

theorem syncSeries_ok_counter {E A : Type} (f : Nat × Nat → Except E A) (p : List (Nat × Nat)) :
    ∀ (c : Nat) (l : List A) (c' : Nat), syncSeries f p c = .ok (l, c') → c' = c + p.length := by
  induction p with
  | nil =>
    intro c l c' h
    simp only [syncSeries] at h
    cases h
    simp
  | cons iv rest ih =>
    intro c l c' h
    simp only [syncSeries] at h
    cases hf : f iv with
    | error e => rw [hf] at h; cases h
    | ok a =>
      rw [hf] at h
      cases hrec : syncSeries f rest (c + 1) with
      | error ec => rw [hrec] at h; cases h
      | ok pair =>
        obtain ⟨as0, c2⟩ := pair
        rw [hrec] at h
        cases h
        have := ih (c + 1) as0 _ hrec
        simp only [List.length_cons]
        omega

theorem syncSeries_error_counter {E A : Type} (f : Nat × Nat → Except E A) (p : List (Nat × Nat)) :
    ∀ (c : Nat) (e : E) (c' : Nat), syncSeries f p c = .error (e, c') → c ≤ c' ∧ c' - c < p.length := by
  induction p with
  | nil => intro c e c' h; simp only [syncSeries] at h; cases h
  | cons iv rest ih =>
    intro c e c' h
    simp only [syncSeries] at h
    cases hf : f iv with
    | error e0 =>
      rw [hf] at h
      cases h
      simp only [List.length_cons]
      omega
    | ok a =>
      rw [hf] at h
      cases hrec : syncSeries f rest (c + 1) with
      | error ec =>
        obtain ⟨e1, c2⟩ := ec
        rw [hrec] at h
        cases h
        have := ih (c + 1) _ _ hrec
        simp only [List.length_cons]
        omega
      | ok pair =>
        obtain ⟨as0, c2⟩ := pair
        rw [hrec] at h
        cases h

theorem syncSeries_all_ok {E A : Type} (f : Nat × Nat → Except E A) (p : List (Nat × Nat)) :
    ∀ c : Nat, (∀ iv ∈ p, ∃ a, f iv = .ok a) →
      syncSeries f p c = .ok (p.filterMap (fun iv => (f iv).toOption), c + p.length) := by
  induction p with
  | nil => intro c _; simp [syncSeries]
  | cons iv rest ih =>
    intro c hok
    obtain ⟨a, ha⟩ := hok iv (List.mem_cons_self iv rest)
    have hrec := ih (c + 1) (fun iv' h' => hok iv' (List.mem_cons_of_mem iv h'))
    simp only [syncSeries, ha, hrec, List.filterMap_cons, Except.toOption, List.length_cons]
    have harith : c + 1 + rest.length = c + (rest.length + 1) := by omega
    rw [harith]

theorem syncSeries_ok_all {E A : Type} (f : Nat × Nat → Except E A) (p : List (Nat × Nat)) :
    ∀ (c : Nat) (l : List A) (c' : Nat), syncSeries f p c = .ok (l, c') →
      (∀ iv ∈ p, ∃ a, f iv = .ok a) ∧ l = p.filterMap (fun iv => (f iv).toOption) := by
  induction p with
  | nil =>
    intro c l c' h
    simp only [syncSeries] at h
    cases h
    simp
  | cons iv rest ih =>
    intro c l c' h
    simp only [syncSeries] at h
    cases hf : f iv with
    | error e => rw [hf] at h; cases h
    | ok a =>
      rw [hf] at h
      cases hrec : syncSeries f rest (c + 1) with
      | error ec => rw [hrec] at h; cases h
      | ok pair =>
        obtain ⟨as0, c2⟩ := pair
        rw [hrec] at h
        cases h
        obtain ⟨hall, hl⟩ := ih (c + 1) as0 _ hrec
        refine ⟨?_, ?_⟩
        · intro iv' hiv'
          rcases List.mem_cons.mp hiv' with rfl | h'
          · exact ⟨a, hf⟩
          · exact hall iv' h'
        · simp [List.filterMap_cons, hf, Except.toOption, hl]

theorem gather_ok_of_all_ok {E A : Type} (f : Nat × Nat → Except E A) (p : List (Nat × Nat))
    (sched : List Nat) (hsub : ∀ i ∈ sched, i < p.length)
    (hok : ∀ iv ∈ p, ∃ a, f iv = .ok a) :
    gatherModel (p.map f) sched = .ok (p.filterMap (fun iv => (f iv).toOption)) := by
  unfold gatherModel
  have hnil : sched.filterMap (errOf (p.map f)) = [] := by
    rw [List.filterMap_eq_nil_iff]
    intro i hi
    have hilt := hsub i hi
    unfold errOf
    rw [List.get?_eq_getElem?, List.getElem?_map, List.getElem?_eq_getElem hilt]
    obtain ⟨a, ha⟩ := hok _ (List.getElem_mem hilt)
    simp [ha]
  rw [hnil]
  simp only [List.head?_nil, List.filterMap_map]
  rfl

theorem gather_ok_inv {E A : Type} (outcomes : List (Except E A)) (sched : List Nat) (l : List A)
    (h : gatherModel outcomes sched = .ok l) :
    (∀ i ∈ sched, errOf outcomes i = none) ∧ l = outcomes.filterMap Except.toOption := by
  unfold gatherModel at h
  cases hh : (sched.filterMap (errOf outcomes)).head? with
  | some e => rw [hh] at h; cases h
  | none =>
    rw [hh] at h
    cases h
    rw [List.head?_eq_none_iff] at hh
    exact ⟨fun i hi => (List.filterMap_eq_nil_iff.mp hh) i hi, rfl⟩

theorem progressAfter_eq (l : List Nat) : ∀ c : Nat, progressAfter l c = List.range' c (l.length + 1) := by
  induction l with
  | nil => intro c; simp [progressAfter, List.range']
  | cons x xs ih =>
    intro c
    simp only [progressAfter, List.length_cons, ih, List.range']

theorem inc_fields {st st' : DS} (h : _increment_progress st = .ok st') :
    st'.ID = st.ID ∧ st'.URL = st.URL ∧ st'.progress = st.progress ∧
      (st.bar.isSome = true → st'.bar.isSome = true) := by
  unfold _increment_progress at h
  by_cases hp : st.progress
  · rw [if_pos hp] at h
    cases hb : st.bar with
    | none => rw [hb] at h; cases h
    | some b => rw [hb] at h; cases h; simp
  · rw [if_neg hp] at h; cases h; simp

theorem desc_fields {st : DS} {d : String} {st' : DS}
    (h : _update_progress_description st d = .ok st') :
    st'.ID = st.ID ∧ st'.URL = st.URL ∧ st'.progress = st.progress ∧
      (st.bar.isSome = true → st'.bar.isSome = true) := by
  unfold _update_progress_description at h
  by_cases hp : st.progress
  · rw [if_pos hp] at h
    cases hb : st.bar with
    | none => rw [hb] at h; cases h
    | some b => rw [hb] at h; cases h; simp
  · rw [if_neg hp] at h; cases h; simp

theorem init_fields (st : DS) (t : Nat) :
    (_init_progress st t).ID = st.ID ∧ (_init_progress st t).URL = st.URL ∧
      (_init_progress st t).progress = st.progress := by
  unfold _init_progress
  split <;> simp

theorem init_bar_some (st : DS) (t : Nat) (hp : st.progress = true) :
    ((_init_progress st t).bar).isSome = true := by
  unfold _init_progress
  cases hb : st.bar <;> simp [hp, hb]

theorem init_of_fresh {st : DS} (t : Nat) (hp : st.progress = true) (hb : st.bar = none) :
    _init_progress st t = { st with bar := some ⟨t, 0, ""⟩ } := by
  unfold _init_progress
  simp [hp, hb]

theorem desc_of_some {st : DS} {b : Bar} (d : String) (hp : st.progress = true)
    (hb : st.bar = some b) :
    _update_progress_description st d = .ok { st with bar := some { b with desc := d } } := by
  unfold _update_progress_description
  simp [hp, hb]

theorem close_of_some {st : DS} {b : Bar} (hp : st.progress = true) (hb : st.bar = some b) :
    _close_progress st = .ok { st with bar := none } := by
  unfold _close_progress
  simp [hp, hb]

theorem loopDS_fields {E A : Type} (f : Nat × Nat → Except E A) (p : List (Nat × Nat)) :
    ∀ st : DS, (loopDS f p st).2.ID = st.ID ∧ (loopDS f p st).2.URL = st.URL ∧
      (loopDS f p st).2.progress = st.progress ∧
      (st.bar.isSome = true → ((loopDS f p st).2.bar).isSome = true) := by
  induction p with
  | nil => intro st; simp [loopDS]
  | cons iv rest ih =>
    intro st
    cases hf : f iv with
    | error e =>
      have heq : (loopDS f (iv :: rest) st).2 = st := by simp [loopDS, hf]
      rw [heq]
      simp
    | ok a =>
      cases hi : _increment_progress st with
      | error pe =>
        have heq : (loopDS f (iv :: rest) st).2 = st := by simp [loopDS, hf, hi]
        rw [heq]
        simp
      | ok st1 =>
        have hfi := inc_fields hi
        cases hrec : loopDS f rest st1 with
        | mk r st2 =>
          have hrest := ih st1
          rw [hrec] at hrest
          have heq : (loopDS f (iv :: rest) st).2 = st2 := by
            cases r <;> simp [loopDS, hf, hi, hrec]
          rw [heq]
          exact ⟨hrest.1.trans hfi.1, hrest.2.1.trans hfi.2.1, hrest.2.2.1.trans hfi.2.2.1,
            fun hs => hrest.2.2.2 (hfi.2.2.2 hs)⟩

theorem seriesRunDS_state {E A : Type} (f : Nat × Nat → Except E A) (a b : Nat) (st : DS) :
    (seriesRunDS f a b st).2.ID = st.ID ∧ (seriesRunDS f a b st).2.URL = st.URL ∧
      (seriesRunDS f a b st).2.progress = st.progress ∧
      (st.progress = true → ((seriesRunDS f a b st).2.bar).isSome = true) := by
  unfold seriesRunDS
  have hin := init_fields st ((boundaries a b).length - 1)
  cases hd : _update_progress_description (_init_progress st ((boundaries a b).length - 1))
      "Downloading" with
  | error pe =>
    refine ⟨by simp [hin.1], by simp [hin.2.1], by simp [hin.2.2],
      fun hp => by simpa using init_bar_some st ((boundaries a b).length - 1) hp⟩
  | ok st2 =>
    have hdf := desc_fields hd
    have hloop := loopDS_fields f (plan a b) st2
    refine ⟨by simp [hloop.1, hdf.1, hin.1], by simp [hloop.2.1, hdf.2.1, hin.2.1],
      by simp [hloop.2.2.1, hdf.2.2.1, hin.2.2], fun hp => ?_⟩
    exact hloop.2.2.2 (hdf.2.2.2 (init_bar_some st _ hp))

theorem close_fields {st st' : DS} (h : _close_progress st = .ok st') :
    st'.ID = st.ID ∧ st'.URL = st.URL := by
  unfold _close_progress at h
  by_cases hp : st.progress
  · rw [if_pos hp] at h
    cases hb : st.bar with
    | none => rw [hb] at h; cases h
    | some b2 => rw [hb] at h; cases h; exact ⟨rfl, rfl⟩
  · rw [if_neg hp] at h; cases h; exact ⟨rfl, rfl⟩

theorem init_once (st : DS) (t t2 : Nat) :
    _init_progress (_init_progress st t) t2 = _init_progress st t := by
  by_cases hc : st.progress && st.bar.isNone
  · have h1 : _init_progress st t = { st with bar := some ⟨t, 0, ""⟩ } := by
      unfold _init_progress; rw [if_pos hc]
    rw [h1]
    unfold _init_progress
    simp
  · have h1 : _init_progress st t = st := by
      unfold _init_progress; rw [if_neg hc]
    rw [h1]
    unfold _init_progress
    rw [if_neg hc]

theorem requestRun_bar_none {E A : Type} (f : Nat × Nat → Except E A) (a b : Nat) (st : DS) :
    (requestRun f true a b st).2.bar = none := by
  unfold requestRun
  cases hs : seriesRunDS f a b { st with progress := true } with
  | mk r st1 =>
    have hst := seriesRunDS_state f a b { st with progress := true }
    rw [hs] at hst
    have hpr : st1.progress = true := hst.2.2.1
    have hsome : st1.bar.isSome = true := hst.2.2.2 rfl
    obtain ⟨b1, hb1⟩ := Option.isSome_iff_exists.mp hsome
    show (match _close_progress st1 with
      | .ok st2 => (r, st2)
      | .error _ => ((.error .attrError : Except (RunErr E) (List A)), st1)).2.bar = none
    rw [close_of_some hpr hb1]

/-- C1 counterexample: the claim's scenario plan is wrong on the code.  For
`start = 2020-01-01`, `end = 2022-06-15`, yearly frequency, the code does not
leave the last sub-interval at the exact requested end: every sub-interval,
the last included, has its end pulled back one minute, so the plan differs
from the claimed `[(2020-01-01, 2020-12-31 23:59), (2021-01-01,
2021-12-31 23:59), (2022-01-01, 2022-06-15)]`. -/
theorem C1_counterexample :
    plan d20200101 d20220615 ≠
      [(d20200101, d20201231t2359), (d20210101, d20211231t2359), (d20220101, d20220615)] := by
  decide

/-- C1 (amended): for sorted anchors lying within a request range `s <= e`,
the partitioner pulls the end of *every* sub-interval — the last one included —
backward by one minute from the following boundary; in particular the last
sub-interval ends at the requested end minus one minute, and the scenario
`start = 2020-01-01, end = 2022-06-15`, yearly frequency, yields
`[(2020-01-01, 2020-12-31 23:59), (2021-01-01, 2021-12-31 23:59),
(2022-01-01, 2022-06-14 23:59)]`. -/
theorem C1_amended_thm (anchors : List Nat) (s e : Nat)
    (hA : List.Pairwise (· ≤ ·) anchors) (hlo : ∀ t ∈ anchors, s ≤ t)
    (hhi : ∀ t ∈ anchors, t ≤ e) (hse : s ≤ e) :
    (∀ i, i < (planWith anchors s e).length →
      ((planWith anchors s e).getD i (0, 0)).2 =
        (boundariesWith anchors s e).getD (i + 1) 0 - 60) ∧
    (planWith anchors s e ≠ [] →
      ((planWith anchors s e).getD ((planWith anchors s e).length - 1) (0, 0)).2 = e - 60) ∧
    plan d20200101 d20220615 =
      [(d20200101, d20201231t2359), (d20210101, d20211231t2359),
        (d20220101, d20220614t2359)] := by
  have hb := boundariesWith_sorted hA hlo hhi hse
  have hpl : (planWith anchors s e).length = (boundariesWith anchors s e).length - 1 :=
    pairUp_length _
  refine ⟨?_, ?_, by decide⟩
  · intro i hi
    have hlen : i < (boundariesWith anchors s e).length - 1 := by omega
    rw [show planWith anchors s e = pairUp (boundariesWith anchors s e) from rfl,
      pairUp_getD _ _ hlen]
  · intro hne
    have h1 : 1 ≤ (planWith anchors s e).length := List.length_pos.mpr hne
    have hblen : 2 ≤ (boundariesWith anchors s e).length := by omega
    have hpl2 : (pairUp (boundariesWith anchors s e)).length =
        (boundariesWith anchors s e).length - 1 := pairUp_length _
    rw [show planWith anchors s e = pairUp (boundariesWith anchors s e) from rfl]
    rw [pairUp_getD _ _ (show (pairUp (boundariesWith anchors s e)).length - 1 <
      (boundariesWith anchors s e).length - 1 by omega)]
    have hplus : (pairUp (boundariesWith anchors s e)).length - 1 + 1 =
        (boundariesWith anchors s e).length - 1 := by omega
    rw [hplus]
    have hlast : (boundariesWith anchors s e).getD ((boundariesWith anchors s e).length - 1) 0 = e := by
      refine sorted_getD_last hb (mem_boundariesWith.mpr (Or.inr (Or.inr rfl))) ?_
      intro x hx
      rcases mem_boundariesWith.mp hx with rfl | hx2 | hx3
      · exact hse
      · exact hhi x hx2
      · exact hx3.le
    rw [hlast]

/-- C1 witness: the amended theorem evaluated at anchors `[2021-01-01]` over
the range 2020-06-15 .. 2021-06-15. -/
theorem C1_witness :
    ((planWith [d20210101] d20200615 d20210615).getD 0 (0, 0)).2 =
      (boundariesWith [d20210101] d20200615 d20210615).getD 1 0 - 60 ∧
    ((planWith [d20210101] d20200615 d20210615).getD
      ((planWith [d20210101] d20200615 d20210615).length - 1) (0, 0)).2 = d20210615 - 60 := by
  have h := C1_amended_thm [d20210101] d20200615 d20210615 (by decide) (by decide)
    (by decide) (by decide)
  exact ⟨h.1 0 (by decide), h.2.1 (by decide)⟩

/-- C4 counterexample: with `start > end` (2022-06-15 down to 2020-01-01) the
code raises no `InvalidRangeError` — there is no range validation anywhere —
and does not stop before network activity: the partition degenerates to the
single reversed interval `(start, end - 1min)` and the sequential executor
performs exactly one fetch on it, returning that fetch's payload. -/
theorem C4_counterexample :
    plan d20220615 d20200101 = [(d20220615, d20200101 - 60)] ∧
    syncData (fun _ => (Except.ok 0 : Except Unit Nat)) (plan d20220615 d20200101) =
      .ok [0] := by
  exact ⟨by decide, by decide⟩

/-- C4 (amended): for every request with `start > end` no error is raised
before fetching; `pd.date_range` is empty, so the boundary index is
`[start, end]` and the partitioner yields the single sub-interval
`(start, end - 1min)` with start after end, which is then fetched. -/
theorem C4_amended_thm (s e : Nat) (h : e < s) : plan s e = [(s, e - 60)] := by
  have hanch : dateRangeYS s e = [] := by
    unfold dateRangeYS
    rw [List.filter_eq_nil_iff]
    intro a _
    simp only [Bool.and_eq_true, decide_eq_true_eq, not_and]
    intro h1 h2
    omega
  rw [plan, hanch]
  have hbb : boundariesWith [] s e = [s, e] := by
    rw [boundariesWith_eq_cons]
    have hne : e ≠ s := by omega
    simp [dropDupsAux, hne]
  rw [planWith, hbb]
  rfl

/-- C4 witness: the amended theorem at `start = 2022-06-15 > end = 2020-01-01`. -/
theorem C4_witness : plan d20220615 d20200101 = [(d20220615, d20200101 - 60)] :=
  C4_amended_thm d20220615 d20200101 (by decide)

/-- C5 counterexample: both halves of the claim fail on the code.  With
`start = end = 2020-06-15` (`start <= end` holds) the plan is empty, not of
length at least 1; and for 2020-06-15 .. 2020-08-01, a range inside one
yearly bucket, the single interval is `(start, end - 1min)`, not
`(start, end)`. -/
theorem C5_counterexample :
    plan d20200615 d20200615 = [] ∧
    plan d20200615 d20200801 ≠ [(d20200615, d20200801)] := by
  exact ⟨by decide, by decide⟩

/-- C5 (amended): for `start < end` (strictly) the plan has length at least 1
for any anchor list, and a plan of length 1 is exactly
`[(start, end - 1min)]`; for `start = end` the plan is empty. -/
theorem C5_amended_thm (anchors : List Nat) (s e : Nat) (hse : s < e) :
    1 ≤ (planWith anchors s e).length ∧
    ((planWith anchors s e).length = 1 → planWith anchors s e = [(s, e - 60)]) := by
  have hsmem : s ∈ boundariesWith anchors s e := mem_boundariesWith.mpr (Or.inl rfl)
  have hemem : e ∈ boundariesWith anchors s e := mem_boundariesWith.mpr (Or.inr (Or.inr rfl))
  have hne : s ≠ e := Nat.ne_of_lt hse
  have hpl : (planWith anchors s e).length = (boundariesWith anchors s e).length - 1 :=
    pairUp_length _
  have hlen2 : 2 ≤ (boundariesWith anchors s e).length := by
    cases hbb : boundariesWith anchors s e with
    | nil => rw [hbb] at hsmem; cases hsmem
    | cons x tl =>
      cases tl with
      | nil =>
        rw [hbb, List.mem_singleton] at hsmem hemem
        exact absurd (hsmem.trans hemem.symm) hne
      | cons y tl2 => simp
  refine ⟨by omega, fun h1 => ?_⟩
  have hblen : (boundariesWith anchors s e).length = 2 := by omega
  have hcons := boundariesWith_eq_cons anchors s e
  obtain ⟨y, hy⟩ : ∃ y, dropDupsAux [s] (anchors ++ [e]) = [y] := by
    rw [hcons] at hblen
    cases hr : dropDupsAux [s] (anchors ++ [e]) with
    | nil => rw [hr] at hblen; simp at hblen
    | cons y tl =>
      rw [hr] at hblen
      simp only [List.length_cons] at hblen
      have htl : tl = [] := List.length_eq_zero.mp (by omega)
      exact ⟨y, by rw [htl]⟩
  have hb2 : boundariesWith anchors s e = [s, y] := by rw [hcons, hy]
  have hye : y = e := by
    rw [hb2] at hemem
    rcases List.mem_cons.mp hemem with h2 | h2
    · exact absurd h2.symm hne
    · rw [List.mem_singleton] at h2; exact h2.symm
  rw [hye] at hb2
  rw [show planWith anchors s e = pairUp (boundariesWith anchors s e) from rfl, hb2]
  rfl

/-- C5 witness: the amended theorem over 2020-06-15 .. 2020-08-01 with no
anchors: the plan is the single interval ending one minute early. -/
theorem C5_witness :
    1 ≤ (planWith [] d20200615 d20200801).length ∧
    planWith [] d20200615 d20200801 = [(d20200615, d20200801 - 60)] := by
  have h := C5_amended_thm [] d20200615 d20200801 (by decide)
  exact ⟨h.1, h.2 (by decide)⟩

/-- C9 (confirmed): in any plan built from sorted in-range anchors, each
sub-interval ends exactly one minute before the next sub-interval's start
boundary, and no timestamp strictly inside that one-minute window is covered
by any sub-interval of the plan. -/
theorem C9_thm (anchors : List Nat) (s e : Nat)
    (hA : List.Pairwise (· ≤ ·) anchors) (hlo : ∀ t ∈ anchors, s ≤ t)
    (hhi : ∀ t ∈ anchors, t ≤ e) (hse : s ≤ e) (i t j : Nat)
    (hi : i + 1 < (planWith anchors s e).length)
    (hj : j < (planWith anchors s e).length)
    (ht1 : ((planWith anchors s e).getD i (0, 0)).2 < t)
    (ht2 : t < ((planWith anchors s e).getD (i + 1) (0, 0)).1) :
    ((planWith anchors s e).getD i (0, 0)).2 =
      ((planWith anchors s e).getD (i + 1) (0, 0)).1 - 60 ∧
    ¬(((planWith anchors s e).getD j (0, 0)).1 ≤ t ∧
      t ≤ ((planWith anchors s e).getD j (0, 0)).2) := by
  have hb := boundariesWith_sorted hA hlo hhi hse
  have hpl : (planWith anchors s e).length = (boundariesWith anchors s e).length - 1 :=
    pairUp_length _
  have hi1 : i < (boundariesWith anchors s e).length - 1 := by omega
  have hi2 : i + 1 < (boundariesWith anchors s e).length - 1 := by omega
  have hj1 : j < (boundariesWith anchors s e).length - 1 := by omega
  have egi := pairUp_getD (boundariesWith anchors s e) i hi1
  have egi1 := pairUp_getD (boundariesWith anchors s e) (i + 1) hi2
  have egj := pairUp_getD (boundariesWith anchors s e) j hj1
  rw [show planWith anchors s e = pairUp (boundariesWith anchors s e) from rfl] at ht1 ht2 ⊢
  refine ⟨by rw [egi, egi1], ?_⟩
  rw [egi] at ht1
  rw [egi1] at ht2
  rw [egj]
  rintro ⟨hc1, hc2⟩
  rcases Nat.lt_or_ge j (i + 1) with hcase | hcase
  · have hle := sorted_getD_le hb (show j + 1 ≤ i + 1 by omega)
      (show i + 1 < (boundariesWith anchors s e).length by omega)
    simp only at ht1 hc2
    omega
  · have hle := sorted_getD_le hb hcase
      (show j < (boundariesWith anchors s e).length by omega)
    simp only at ht2 hc1
    omega

/-- C9 witness: the two-interval plan over 2020-06-15 .. 2021-06-15 with the
2021-01-01 anchor, evaluated 30 seconds inside the skipped minute. -/
theorem C9_witness :
    ((planWith [d20210101] d20200615 d20210615).getD 0 (0, 0)).2 =
      ((planWith [d20210101] d20200615 d20210615).getD 1 (0, 0)).1 - 60 ∧
    ¬(((planWith [d20210101] d20200615 d20210615).getD 1 (0, 0)).1 ≤ d20210101 - 30 ∧
      d20210101 - 30 ≤ ((planWith [d20210101] d20200615 d20210615).getD 1 (0, 0)).2) :=
  C9_thm [d20210101] d20200615 d20210615 (by decide) (by decide) (by decide) (by decide)
    0 (d20210101 - 30) 1 (by decide) (by decide) (by decide) (by decide)

/-- C2 (confirmed): for every plan, every deterministic collaborator and every
completion order, the concurrent executor (asyncio.gather over one task per
sub-interval) produces an output list exactly when the sequential executor
does, and the lists are equal — results are assembled in plan index order
regardless of completion order. -/
theorem C2_thm {E A : Type} (f : Nat × Nat → Except E A) (p : List (Nat × Nat))
    (sched : List Nat) (l : List A) (hperm : sched.Perm (List.range p.length)) :
    syncData f p = .ok l ↔ gatherModel (p.map f) sched = .ok l := by
  constructor
  · intro h
    unfold syncData at h
    cases hs : syncSeries f p 0 with
    | error ec => rw [hs] at h; cases h
    | ok pair =>
      obtain ⟨l0, c0⟩ := pair
      rw [hs] at h
      cases h
      have hsub : ∀ i ∈ sched, i < p.length := fun i hi =>
        List.mem_range.mp (hperm.mem_iff.mp hi)
      obtain ⟨hall, hl⟩ := syncSeries_ok_all f p 0 _ _ hs
      rw [gather_ok_of_all_ok f p sched hsub hall, hl]
  · intro h
    obtain ⟨hnone, hl⟩ := gather_ok_inv (p.map f) sched l h
    have hok : ∀ iv ∈ p, ∃ a, f iv = .ok a := by
      intro iv hiv
      obtain ⟨i, hilt, rfl⟩ := List.mem_iff_getElem.mp hiv
      have hmem : i ∈ sched := hperm.mem_iff.mpr (List.mem_range.mpr hilt)
      have hn := hnone i hmem
      unfold errOf at hn
      rw [List.get?_eq_getElem?, List.getElem?_map, List.getElem?_eq_getElem hilt] at hn
      cases hfv : f p[i] with
      | error e1 => simp [hfv] at hn
      | ok a => exact ⟨a, rfl⟩
    have hrun := syncSeries_all_ok f p 0 hok
    unfold syncData
    rw [hrun, hl, List.filterMap_map]
    rfl

/-- C2 witness: a two-interval plan with a deterministic collaborator and the
reversed completion order `[1, 0]`. -/
theorem C2_witness :
    syncData (fun iv => (Except.ok (iv.1 + iv.2) : Except Unit Nat)) [(1, 2), (3, 4)] =
      .ok [3, 7] ↔
    gatherModel ([(1, 2), (3, 4)].map
      (fun iv => (Except.ok (iv.1 + iv.2) : Except Unit Nat))) [1, 0] = .ok [3, 7] :=
  C2_thm (fun iv => (Except.ok (iv.1 + iv.2) : Except Unit Nat)) [(1, 2), (3, 4)]
    [1, 0] [3, 7] (by decide)

/-- C3 counterexample: the orchestrator does not wait for in-flight tasks.
With two tasks where task 0 completes first with a terminal failure while
task 1 is still running (completion order `[0, 1]`), `asyncio.gather`
propagates the failure at task 0's completion — task 1 is still pending at
surfacing time, contradicting the claim that all other in-flight tasks reach
a terminal state before the failure is surfaced. -/
theorem C3_counterexample :
    gatherModel [(Except.error 5 : Except Nat Nat), Except.ok 1] [0, 1] = .error 5 ∧
    pendingAtSurface [(Except.error 5 : Except Nat Nat), Except.ok 1] [0, 1] = [1] := by
  exact ⟨rfl, rfl⟩

/-- C3 (amended): in concurrent mode, if any task fails terminally the run
raises the first encountered failure (first in completion order) and returns
no partial successful results — but it surfaces that failure immediately,
without waiting for the tasks completing later (`post`) to reach a terminal
state. -/
theorem C3_amended_thm {E A : Type} (outcomes : List (Except E A)) (pre post : List Nat)
    (j : Nat) (e : E) (hpre : ∀ k ∈ pre, errOf outcomes k = none)
    (hj : outcomes.get? j = some (.error e)) :
    gatherModel outcomes (pre ++ j :: post) = .error e := by
  unfold gatherModel
  rw [List.filterMap_append, List.filterMap_eq_nil_iff.mpr hpre]
  have h2 : errOf outcomes j = some e := by unfold errOf; rw [hj]
  rw [List.filterMap_cons, h2]
  rfl

/-- C3 witness: the amended theorem where the successful task 0 completes
first and the failing task 1 second. -/
theorem C3_witness :
    gatherModel [(Except.ok 1 : Except Nat Nat), Except.error 7] [0, 1] = .error 7 :=
  C3_amended_thm [(Except.ok 1 : Except Nat Nat), Except.error 7] [0] [] 1 7
    (by decide) (by decide)

/-- C6 counterexample: in sequential mode the progress counter is *not*
incremented after a terminal failure.  Over the one-interval plan for
2020-06-15 .. 2020-08-01, a collaborator failing terminally leaves the
counter at 0 although one task completed (terminally), so `completed` never
reaches N = 1, contradicting the claim for the sequential mode. -/
theorem C6_counterexample :
    (plan d20200615 d20200801).length = 1 ∧
    syncSeries (fun _ => (Except.error 0 : Except Nat Nat)) (plan d20200615 d20200801) 0 =
      .error (0, 0) := by
  exact ⟨by decide, by decide⟩

/-- C6 (amended): in sequential mode the counter is incremented exactly once
per successful completion — a failure-free run of N sub-intervals drives it
from 0 to N, while a run ending in a terminal failure ends with the counter
strictly below N (the failing completion is not counted); in concurrent mode
the done-callbacks bump the counter once per completion regardless of
outcome, so the counter trace is exactly 0, 1, ..., N. -/
theorem C6_amended_thm {E A : Type} (f g : Nat × Nat → Except E A)
    (p q : List (Nat × Nat)) (l : List A) (c : Nat) (e : E) (c2 : Nat) (sched : List Nat) :
    (syncSeries f p 0 = .ok (l, c) → c = p.length) ∧
    (syncSeries g q 0 = .error (e, c2) → c2 < q.length) ∧
    asyncProgressTrace sched = List.range (sched.length + 1) := by
  refine ⟨fun h => ?_, fun h => ?_, ?_⟩
  · have := syncSeries_ok_counter f p 0 l c h
    omega
  · have := syncSeries_error_counter g q 0 e c2 h
    omega
  · rw [asyncProgressTrace, progressAfter_eq, List.range_eq_range']

/-- C6 witness: a succeeding one-interval sequential run ends with counter 1,
a failing one ends with counter 0 < 1, and the concurrent trace over two
completions is `[0, 1, 2]`. -/
theorem C6_witness :
    ((1 : Nat) = [((1 : Nat), (2 : Nat))].length) ∧
    ((0 : Nat) < [((3 : Nat), (4 : Nat))].length) ∧
    asyncProgressTrace [1, 0] = List.range 3 := by
  have h := C6_amended_thm (fun _ => (Except.ok 9 : Except Nat Nat))
    (fun _ => (Except.error 4 : Except Nat Nat)) [(1, 2)] [(3, 4)] [9] 1 4 0 [1, 0]
  exact ⟨h.1 (by decide), h.2.1 (by decide), h.2.2⟩

/-- C7 (confirmed, with the top-level close modelled from the spec): within a
top-level request `_init_progress` is effective at most once (a second call is
a no-op), a fresh tracker is created with `total` equal to the number of
sub-intervals (`len(dRange) - 1` = plan length), and — because the tracker is
closed at the end of each top-level request — a second request on the same
object starts from `bar = none` again and gets a fresh tracker with the new
total. -/
theorem C7_thm {E A : Type} (f : Nat × Nat → Except E A) (st : DS) (t t2 a b : Nat)
    (hp : st.progress = true) (hb : st.bar = none) :
    _init_progress (_init_progress st t) t2 = _init_progress st t ∧
    _init_progress st t = { st with bar := some ⟨t, 0, ""⟩ } ∧
    (plan a b).length = (boundaries a b).length - 1 ∧
    (requestRun f true a b st).2.bar = none ∧
    (_init_progress { (requestRun f true a b st).2 with progress := true } t2).bar =
      some ⟨t2, 0, ""⟩ := by
  have h4 : (requestRun f true a b st).2.bar = none := requestRun_bar_none f a b st
  refine ⟨init_once st t t2, init_of_fresh t hp hb, pairUp_length _, h4, ?_⟩
  have h5 := @init_of_fresh { (requestRun f true a b st).2 with progress := true } t2 rfl h4
  rw [h5]

/-- C7 witness: a fresh data source with progress enabled over the
one-interval 2020-06-15 .. 2020-08-01 request. -/
theorem C7_witness :
    _init_progress (_init_progress ⟨"GHCND", "U", true, none⟩ 3) 5 =
      _init_progress ⟨"GHCND", "U", true, none⟩ 3 ∧
    _init_progress ⟨"GHCND", "U", true, none⟩ 3 =
      { ID := "GHCND", URL := "U", progress := true, bar := some ⟨3, 0, ""⟩ } ∧
    (plan d20200615 d20200801).length = (boundaries d20200615 d20200801).length - 1 ∧
    (requestRun (fun _ => (Except.ok 0 : Except Unit Nat)) true d20200615 d20200801
      ⟨"GHCND", "U", true, none⟩).2.bar = none ∧
    (_init_progress { (requestRun (fun _ => (Except.ok 0 : Except Unit Nat)) true d20200615
      d20200801 ⟨"GHCND", "U", true, none⟩).2 with progress := true } 5).bar =
      some ⟨5, 0, ""⟩ :=
  C7_thm (fun _ => (Except.ok 0 : Except Unit Nat)) ⟨"GHCND", "U", true, none⟩ 3 5
    d20200615 d20200801 rfl rfl

/-- C8 counterexample: `_close_progress` is not idempotent.  On a state with
progress enabled and a live bar, the first close succeeds (deleting the `bar`
attribute); the second close evaluates `self.bar.close()` with no `bar`
attribute and raises `AttributeError` instead of having the same effect as
the first call. -/
theorem C8_counterexample :
    _close_progress ⟨"A", "U", true, some ⟨3, 3, "Downloading"⟩⟩ =
      .ok ⟨"A", "U", true, none⟩ ∧
    _close_progress ⟨"A", "U", true, none⟩ = .error .attrError := by
  exact ⟨rfl, rfl⟩

/-- C8 (amended): with progress reporting disabled `_close_progress` is a
no-op and hence idempotent; with progress enabled and a live bar, the first
close removes the bar and any second close fails with `AttributeError`
(teardown is not idempotent on that path). -/
theorem C8_amended_thm (st : DS) (b : Bar) :
    (st.progress = false → _close_progress st = .ok st) ∧
    (st.progress = true → st.bar = some b →
      _close_progress st = .ok { st with bar := none } ∧
      _close_progress { st with bar := none } = .error .attrError) := by
  refine ⟨fun hp => ?_, fun hp hb => ⟨close_of_some hp hb, ?_⟩⟩
  · unfold _close_progress
    simp [hp]
  · unfold _close_progress
    simp [hp]

/-- C8 witness: the amended theorem on a live-bar state and on a
progress-disabled state. -/
theorem C8_witness :
    (_close_progress ⟨"B", "V", true, some ⟨2, 1, "d"⟩⟩ =
      .ok { ID := "B", URL := "V", progress := true, bar := none } ∧
    _close_progress { ID := "B", URL := "V", progress := true, bar := none } =
      .error .attrError) ∧
    _close_progress ⟨"B", "V", false, none⟩ = .ok ⟨"B", "V", false, none⟩ :=
  ⟨(C8_amended_thm ⟨"B", "V", true, some ⟨2, 1, "d"⟩⟩ ⟨2, 1, "d"⟩).2 rfl rfl,
    (C8_amended_thm ⟨"B", "V", false, none⟩ ⟨0, 0, ""⟩).1 rfl⟩

/-- C10 (confirmed, with the provider hook modelled from the spec): a
top-level `request_dataframe` run mutates only the `progress` flag and the
`bar` attribute; the `ID` and `URL` fields set in `__init__` are unchanged for
every collaborator, progress flag, range and starting state. -/
theorem C10_thm {E A : Type} (f : Nat × Nat → Except E A) (progressFlag : Bool)
    (a b : Nat) (st : DS) :
    (requestRun f progressFlag a b st).2.ID = st.ID ∧
    (requestRun f progressFlag a b st).2.URL = st.URL := by
  unfold requestRun
  cases hs : seriesRunDS f a b { st with progress := progressFlag } with
  | mk r st1 =>
    have hss := seriesRunDS_state f a b { st with progress := progressFlag }
    rw [hs] at hss
    show ((match _close_progress st1 with
      | .ok st2 => (r, st2)
      | .error _ => ((.error .attrError : Except (RunErr E) (List A)), st1)).2.ID = st.ID) ∧
      ((match _close_progress st1 with
      | .ok st2 => (r, st2)
      | .error _ => ((.error .attrError : Except (RunErr E) (List A)), st1)).2.URL = st.URL)
    cases hc : _close_progress st1 with
    | ok st2 =>
      have hcf := close_fields hc
      exact ⟨hcf.1.trans hss.1, hcf.2.trans hss.2.1⟩
    | error pe =>
      exact ⟨hss.1, hss.2.1⟩

end Storms
